import Mathlib

/-!
Verification of the configuration loading core of `sawtooth-pbft`
(`src/config.rs`): the `PbftConfig` record, its defaults, the settings
merge helpers, the member-list decoding and the fatal-error conditions of
`load_settings`.

Modelling conventions:
* Rust `Duration` values are modelled as natural numbers of nanoseconds
  (`Duration.fromMillis`, `Duration.fromSecs`); the ordering on `Duration`
  is the numeric ordering, exactly as in Rust.
* The `HashMap<String, String>` of retrieved settings is modelled as an
  association list (`Settings`) with first-match lookup.
* A Rust `panic!` (process abort) is modelled as the `none` result of an
  `Option`-valued function; `some cfg` is a normal return.
* `str::parse::<u64>()` is modelled by `parseU64` (optional leading plus
  sign, at least one ASCII digit, value below `2 ^ 64`).
* `hex::decode` is modelled by `hexDecode` (even number of hex digits).
* `serde_json::from_str::<Vec<String>>` is modelled by
  `jsonParseStringVec`: a whole-input JSON array of JSON strings, with
  JSON whitespace and the standard string escapes including surrogate
  pairs.
-/

/-- Rust `std::time::Duration`, as a count of nanoseconds. -/
abbrev Duration := Nat

/-- Rust `Duration::from_millis`. -/
def Duration.fromMillis (n : Nat) : Duration := n * 1000000

/-- Rust `Duration::from_secs`. -/
def Duration.fromSecs (n : Nat) : Duration := n * 1000000000

/-- A peer identifier: raw bytes (Rust `PeerId = Vec<u8>`). -/
abbrev PeerId := List Nat

/-- The retrieved settings mapping (`HashMap<String, String>`). -/
abbrev Settings := List (String × String)

/-- Lookup of a settings key (`HashMap::get`). -/
def settingsGet (s : Settings) (k : String) : Option String :=
  List.lookup k s

/-- The configuration record from `src/config.rs` (`struct PbftConfig`). -/
structure PbftConfig where
  members : List PeerId
  block_publishing_delay : Duration
  update_recv_timeout : Duration
  exponential_retry_base : Duration
  exponential_retry_max : Duration
  idle_timeout : Duration
  commit_timeout : Duration
  view_change_duration : Duration
  forced_view_change_period : Nat
  max_log_size : Nat
  storage : String
deriving DecidableEq

/-- `PbftConfig::default()` from `src/config.rs`. -/
def PbftConfig.default : PbftConfig :=
  { members := []
    block_publishing_delay := Duration.fromMillis 200
    update_recv_timeout := Duration.fromMillis 10
    exponential_retry_base := Duration.fromMillis 100
    exponential_retry_max := Duration.fromSecs 60
    idle_timeout := Duration.fromSecs 30
    commit_timeout := Duration.fromSecs 30
    view_change_duration := Duration.fromSecs 5
    forced_view_change_period := 30
    max_log_size := 1000
    storage := "memory" }

def membersKey : String := "sawtooth.consensus.pbft.members"

def blockPublishingDelayKey : String := "sawtooth.consensus.pbft.block_publishing_delay"

def idleTimeoutKey : String := "sawtooth.consensus.pbft.idle_timeout"

def commitTimeoutKey : String := "sawtooth.consensus.pbft.commit_timeout"

def viewChangeDurationKey : String := "sawtooth.consensus.pbft.view_change_duration"

def forcedViewChangePeriodKey : String := "sawtooth.consensus.pbft.forced_view_change_period"

/-- Strip the single optional leading plus sign accepted by Rust unsigned
integer parsing. -/
def stripPlus (l : List Char) : List Char :=
  match l with
  | c :: rest => if c = '+' then rest else c :: rest
  | [] => []

/-- Rust `str::parse::<u64>()`: an optional leading plus sign followed by a
nonempty run of ASCII decimal digits whose value fits in 64 bits. -/
def parseU64 (s : String) : Option Nat :=
  if (stripPlus s.data).isEmpty then none
  else if (stripPlus s.data).all Char.isDigit then
    if (stripPlus s.data).foldl (fun a c => a * 10 + (c.toNat - 48)) 0 < 2 ^ 64 then
      some ((stripPlus s.data).foldl (fun a c => a * 10 + (c.toNat - 48)) 0)
    else none
  else none

/-- Numeric value of a hexadecimal digit (both cases), `none` otherwise. -/
def hexVal (c : Char) : Option Nat :=
  if '0' ≤ c ∧ c ≤ '9' then some (c.toNat - 48)
  else if 'a' ≤ c ∧ c ≤ 'f' then some (c.toNat - 87)
  else if 'A' ≤ c ∧ c ≤ 'F' then some (c.toNat - 55)
  else none

/-- Core of `hex::decode`: pairs of hex digits to bytes; an odd number of
characters or a non-hex character fails. -/
def hexDecodeList : List Char → Option (List Nat)
  | [] => some []
  | [_] => none
  | c1 :: c2 :: rest =>
    match hexVal c1, hexVal c2, hexDecodeList rest with
    | some h, some l, some tail => some ((h * 16 + l) :: tail)
    | _, _, _ => none

/-- Rust `hex::decode` on a string. -/
def hexDecode (s : String) : Option (List Nat) :=
  hexDecodeList s.data

/-- The double-quote character. -/
def quoteChar : Char := Char.ofNat 34

/-- The backslash character. -/
def backslashChar : Char := Char.ofNat 92

/-- The carriage-return character. -/
def crChar : Char := Char.ofNat 13

/-- JSON insignificant whitespace. -/
def isJsonWs (c : Char) : Bool :=
  c = ' ' || c = '\t' || c = '\n' || c = crChar

/-- Skip JSON whitespace. -/
def skipWs : List Char → List Char
  | [] => []
  | c :: rest => if isJsonWs c then skipWs rest else c :: rest

/-- Single-character JSON string escapes. -/
def jsonEscape (c : Char) : Option Char :=
  if c = quoteChar then some quoteChar
  else if c = backslashChar then some backslashChar
  else if c = '/' then some '/'
  else if c = 'b' then some (Char.ofNat 8)
  else if c = 'f' then some (Char.ofNat 12)
  else if c = 'n' then some '\n'
  else if c = 'r' then some crChar
  else if c = 't' then some '\t'
  else none

/-- Value of a four-digit hex escape. -/
def hex4 (a b c d : Char) : Option Nat :=
  match hexVal a, hexVal b, hexVal c, hexVal d with
  | some ha, some hb, some hc, some hd =>
    some (((ha * 16 + hb) * 16 + hc) * 16 + hd)
  | _, _, _, _ => none

/-- Body of a JSON string after the opening quote: returns the decoded
characters and the input remaining after the closing quote.  Control
characters below `0x20` must be escaped; `\uXXXX` escapes combine
surrogate pairs and reject lone surrogates, as `serde_json` does.  The
fuel argument dominates the input length. -/
def parseStringBody : Nat → List Char → Option (List Char × List Char)
  | 0, _ => none
  | _ + 1, [] => none
  | fuel + 1, c :: rest =>
    if c = quoteChar then some ([], rest)
    else if c = backslashChar then
      match rest with
      | 'u' :: a :: b :: c2 :: d :: rest2 =>
        match hex4 a b c2 d with
        | none => none
        | some n =>
          if n < 0xD800 || 0xDFFF < n then
            match parseStringBody fuel rest2 with
            | some (s, r) => some (Char.ofNat n :: s, r)
            | none => none
          else if n ≤ 0xDBFF then
            match rest2 with
            | e1 :: 'u' :: a2 :: b2 :: c3 :: d2 :: rest3 =>
              if e1 = backslashChar then
                match hex4 a2 b2 c3 d2 with
                | some m =>
                  if 0xDC00 ≤ m ∧ m ≤ 0xDFFF then
                    match parseStringBody fuel rest3 with
                    | some (s, r) =>
                      some (Char.ofNat (0x10000 + (n - 0xD800) * 0x400 + (m - 0xDC00)) :: s, r)
                    | none => none
                  else none
                | none => none
              else none
            | _ => none
          else none
      | e :: rest2 =>
        match jsonEscape e with
        | some ec =>
          match parseStringBody fuel rest2 with
          | some (s, r) => some (ec :: s, r)
          | none => none
        | none => none
      | [] => none
    else if c.toNat < 0x20 then none
    else
      match parseStringBody fuel rest with
      | some (s, r) => some (c :: s, r)
      | none => none

/-- Elements of a nonempty JSON array of strings, starting right after the
opening bracket (or a comma): leading whitespace, a string, then either a
comma and more elements or the closing bracket. -/
def parseArrayRest : Nat → List Char → Option (List String × List Char)
  | 0, _ => none
  | fuel + 1, l =>
    match skipWs l with
    | c :: rest =>
      if c = quoteChar then
        match parseStringBody (rest.length + 1) rest with
        | some (s, rest2) =>
          match skipWs rest2 with
          | ',' :: rest3 =>
            match parseArrayRest fuel rest3 with
            | some (ss, r) => some (String.mk s :: ss, r)
            | none => none
          | ']' :: rest3 => some ([String.mk s], rest3)
          | _ => none
        | none => none
      else none
    | [] => none

/-- Rust `serde_json::from_str::<Vec<String>>`: the whole input must be a
JSON array whose elements are JSON strings, surrounded by optional
whitespace. -/
def jsonParseStringVec (s : String) : Option (List String) :=
  match skipWs s.data with
  | '[' :: rest =>
    match skipWs rest with
    | ']' :: rest2 => if (skipWs rest2).isEmpty then some [] else none
    | _ =>
      match parseArrayRest (rest.length + 1) rest with
      | some (ss, rest2) => if (skipWs rest2).isEmpty then some ss else none
      | none => none
  | _ => none

/-- Hex-decode every element in order (the `members.into_iter().map(hex::decode).collect()`
step of `get_members_from_settings`); any element failing to decode is a
panic (`none`). -/
def decodeMembers : List String → Option (List PeerId)
  | [] => some []
  | e :: rest =>
    match hexDecode e, decodeMembers rest with
    | some b, some bs => some (b :: bs)
    | _, _ => none

/-- Rust `get_members_from_settings` from `src/config.rs`: the members
setting must be present, parse as a JSON array of strings, and every
element must hex-decode; any failure is a panic (`none`). -/
def get_members_from_settings (settings : Settings) : Option (List PeerId) :=
  match settingsGet settings membersKey with
  | none => none
  | some members_setting_value =>
    match jsonParseStringVec members_setting_value with
    | none => none
    | some members => decodeMembers members

/-- Rust `merge_setting_if_set_and_map` from `src/config.rs`, at the only
element type used (`u64`): if the key is present and its value parses, the
field becomes `map` of the parsed value, otherwise it is unchanged. -/
def merge_setting_if_set_and_map {α : Type} (settings_map : Settings)
    (setting_field : α) (setting_key : String) (map : Nat → α) : α :=
  match settingsGet settings_map setting_key with
  | some setting =>
    match parseU64 setting with
    | some setting_value => map setting_value
    | none => setting_field
  | none => setting_field

/-- Rust `merge_setting_if_set` from `src/config.rs`. -/
def merge_setting_if_set (settings_map : Settings) (setting_field : Nat)
    (setting_key : String) : Nat :=
  merge_setting_if_set_and_map settings_map setting_field setting_key (fun v => v)

/-- Rust `merge_secs_setting_if_set` from `src/config.rs`. -/
def merge_secs_setting_if_set (settings_map : Settings)
    (setting_field : Duration) (setting_key : String) : Duration :=
  merge_setting_if_set_and_map settings_map setting_field setting_key Duration.fromSecs

/-- Rust `merge_millis_setting_if_set` from `src/config.rs`. -/
def merge_millis_setting_if_set (settings_map : Settings)
    (setting_field : Duration) (setting_key : String) : Duration :=
  merge_setting_if_set_and_map settings_map setting_field setting_key Duration.fromMillis

/-- Rust `PbftConfig::load_settings` from `src/config.rs`, applied to an
already retrieved settings mapping (retrieval itself is the retry loop,
modelled separately): decode the members (panic on failure), merge the
four duration settings, check `block_publishing_delay < idle_timeout`
(panic on violation), then merge `forced_view_change_period`. -/
def PbftConfig.load_settings (cfg : PbftConfig) (settings : Settings) :
    Option PbftConfig :=
  match get_members_from_settings settings with
  | none => none
  | some members =>
    let block_publishing_delay :=
      merge_millis_setting_if_set settings cfg.block_publishing_delay blockPublishingDelayKey
    let idle_timeout :=
      merge_secs_setting_if_set settings cfg.idle_timeout idleTimeoutKey
    let commit_timeout :=
      merge_secs_setting_if_set settings cfg.commit_timeout commitTimeoutKey
    let view_change_duration :=
      merge_secs_setting_if_set settings cfg.view_change_duration viewChangeDurationKey
    if idle_timeout ≤ block_publishing_delay then none
    else
      some { cfg with
        members := members
        block_publishing_delay := block_publishing_delay
        idle_timeout := idle_timeout
        commit_timeout := commit_timeout
        view_change_duration := view_change_duration
        forced_view_change_period :=
          merge_setting_if_set settings cfg.forced_view_change_period forcedViewChangePeriodKey }

/-- Modelled from the spec: the retrieval loop `retry_until_ok` lives in
`src/timing.rs`, which is not among the provided sources.  Per the spec
(section 4.2), the settings call is retried indefinitely with exponential
backoff: initial delay `exponential_retry_base`, doubling each attempt,
each delay capped at `exponential_retry_max`, until the call succeeds.
Attempts are modelled as a function from the attempt index to an optional
result, the unbounded loop by a fuel bound on the number of attempts, and
the slept delays are returned alongside the successful result. -/
def retry_until_ok {α : Type} (f : Nat → Option α) (maxDelay : Nat) :
    Nat → Nat → Nat → Option (α × List Nat)
  | 0, _, _ => none
  | fuel + 1, attempt, delay =>
    match f attempt with
    | some a => some (a, [])
    | none =>
      match retry_until_ok f maxDelay fuel (attempt + 1) (min (delay * 2) maxDelay) with
      | some (a, ds) => some (a, delay :: ds)
      | none => none

/-! ### Helper lemmas -/

theorem merge_setting_if_set_and_map_not_set {α : Type} (s : Settings) (f : α)
    (k : String) (m : Nat → α)
    (h : ∀ v, settingsGet s k = some v → parseU64 v = none) :
    merge_setting_if_set_and_map s f k m = f := by
  unfold merge_setting_if_set_and_map
  cases hv : settingsGet s k with
  | none => rfl
  | some v => simp [h v hv]

theorem merge_setting_if_set_and_map_set {α : Type} (s : Settings) (f : α)
    (k : String) (m : Nat → α) (v : String) (n : Nat)
    (hv : settingsGet s k = some v) (hn : parseU64 v = some n) :
    merge_setting_if_set_and_map s f k m = m n := by
  unfold merge_setting_if_set_and_map
  rw [hv]
  simp [hn]

theorem merge_setting_if_set_and_map_idem {α : Type} (s : Settings) (f : α)
    (k : String) (m : Nat → α) :
    merge_setting_if_set_and_map s (merge_setting_if_set_and_map s f k m) k m =
      merge_setting_if_set_and_map s f k m := by
  unfold merge_setting_if_set_and_map
  cases hv : settingsGet s k with
  | none => rfl
  | some v =>
    cases hn : parseU64 v with
    | none => simp [hn]
    | some n => simp [hn]

theorem decodeMembers_eq_none_iff (l : List String) :
    decodeMembers l = none ↔ ∃ e ∈ l, hexDecode e = none := by
  induction l with
  | nil => simp [decodeMembers]
  | cons a t ih =>
    cases ha : hexDecode a with
    | none => simp [decodeMembers, ha]
    | some b =>
      cases ht : decodeMembers t with
      | none =>
        simp only [decodeMembers, ha, ht]
        constructor
        · intro _
          obtain ⟨e, he, hd⟩ := ih.mp ht
          exact ⟨e, List.mem_cons_of_mem a he, hd⟩
        · intro _
          trivial
      | some tbs =>
        simp only [decodeMembers, ha, ht]
        simp
        constructor
        · simp [ha]
        · intro x hx hnone
          have hn := ih.mpr ⟨x, hx, hnone⟩
          rw [ht] at hn
          exact Option.noConfusion hn

theorem decodeMembers_forall2 (l : List String) (bs : List PeerId)
    (h : decodeMembers l = some bs) :
    List.Forall₂ (fun e b => hexDecode e = some b) l bs := by
  induction l generalizing bs with
  | nil =>
    simp [decodeMembers] at h
    simp [← h]
  | cons a t ih =>
    cases ha : hexDecode a with
    | none => simp [decodeMembers, ha] at h
    | some b =>
      cases ht : decodeMembers t with
      | none => simp [decodeMembers, ha, ht] at h
      | some tbs =>
        simp only [decodeMembers, ha, ht, Option.some.injEq] at h
        rw [← h]
        exact List.Forall₂.cons ha (ih tbs ht)

theorem get_members_eq_none_iff (s : Settings) :
    get_members_from_settings s = none ↔
      (settingsGet s membersKey = none
        ∨ (∃ v, settingsGet s membersKey = some v ∧ jsonParseStringVec v = none)
        ∨ (∃ v arr, settingsGet s membersKey = some v ∧ jsonParseStringVec v = some arr ∧
            ∃ e ∈ arr, hexDecode e = none)) := by
  unfold get_members_from_settings
  cases hv : settingsGet s membersKey with
  | none => simp
  | some v =>
    cases hj : jsonParseStringVec v with
    | none => simp [hj]
    | some arr => simp [hj, decodeMembers_eq_none_iff]

theorem load_settings_eq_none_iff (cfg : PbftConfig) (s : Settings) :
    cfg.load_settings s = none ↔
      (get_members_from_settings s = none ∨
        merge_secs_setting_if_set s cfg.idle_timeout idleTimeoutKey ≤
          merge_millis_setting_if_set s cfg.block_publishing_delay blockPublishingDelayKey) := by
  unfold PbftConfig.load_settings
  cases hm : get_members_from_settings s with
  | none => simp
  | some ms =>
    by_cases hle : merge_secs_setting_if_set s cfg.idle_timeout idleTimeoutKey ≤
        merge_millis_setting_if_set s cfg.block_publishing_delay blockPublishingDelayKey
    · simp [hle]
    · simp [hle]

theorem load_settings_eq_some_iff (cfg : PbftConfig) (s : Settings) (cfg' : PbftConfig) :
    cfg.load_settings s = some cfg' ↔
      ∃ ms, get_members_from_settings s = some ms ∧
        merge_millis_setting_if_set s cfg.block_publishing_delay blockPublishingDelayKey <
          merge_secs_setting_if_set s cfg.idle_timeout idleTimeoutKey ∧
        cfg' = { cfg with
          members := ms
          block_publishing_delay :=
            merge_millis_setting_if_set s cfg.block_publishing_delay blockPublishingDelayKey
          idle_timeout := merge_secs_setting_if_set s cfg.idle_timeout idleTimeoutKey
          commit_timeout := merge_secs_setting_if_set s cfg.commit_timeout commitTimeoutKey
          view_change_duration :=
            merge_secs_setting_if_set s cfg.view_change_duration viewChangeDurationKey
          forced_view_change_period :=
            merge_setting_if_set s cfg.forced_view_change_period forcedViewChangePeriodKey } := by
  unfold PbftConfig.load_settings
  cases hm : get_members_from_settings s with
  | none => simp
  | some ms =>
    by_cases hle : merge_secs_setting_if_set s cfg.idle_timeout idleTimeoutKey ≤
        merge_millis_setting_if_set s cfg.block_publishing_delay blockPublishingDelayKey
    · simp only [if_pos hle]
      constructor
      · intro h
        cases h
      · rintro ⟨ms', hms', hlt, hcfg⟩
        exact absurd hlt (not_lt.mpr hle)
    · simp only [if_neg hle]
      constructor
      · intro h
        injection h with h'
        exact ⟨ms, rfl, not_le.mp hle, h'.symm⟩
      · rintro ⟨ms', hms', hlt, rfl⟩
        injection hms' with h'
        rw [h']

theorem capped_double_pow (delay maxDelay i : Nat) :
    min (min (delay * 2) maxDelay * 2 ^ i) maxDelay = min (delay * 2 ^ (i + 1)) maxDelay := by
  rcases le_total (delay * 2) maxDelay with h | h
  · rw [min_eq_left h]
    congr 1
    rw [pow_succ]
    ring
  · rw [min_eq_right h]
    have hp : 1 ≤ 2 ^ i := Nat.one_le_two_pow
    have hs : (2 : Nat) ^ (i + 1) = 2 ^ i * 2 := pow_succ 2 i
    have h1 : maxDelay ≤ maxDelay * 2 ^ i := by nlinarith
    have h2 : maxDelay ≤ delay * 2 ^ (i + 1) := by nlinarith
    rw [min_eq_right h1, min_eq_right h2]

theorem retry_until_ok_from {α : Type} (f : Nat → Option α) (maxDelay : Nat) :
    ∀ (N start delay fuel : Nat) (a : α), delay ≤ maxDelay → N < fuel →
      f (start + N) = some a → (∀ i, i < N → f (start + i) = none) →
      retry_until_ok f maxDelay fuel start delay =
        some (a, (List.range N).map (fun i => min (delay * 2 ^ i) maxDelay)) := by
  intro N
  induction N with
  | zero =>
    intro start delay fuel a hd hfuel hN _
    cases fuel with
    | zero => omega
    | succ fuel =>
      simp only [retry_until_ok]
      rw [Nat.add_zero] at hN
      rw [hN]
      simp
  | succ N ih =>
    intro start delay fuel a hd hfuel hN hfail
    cases fuel with
    | zero => omega
    | succ fuel =>
      have h0 : f start = none := by
        have h := hfail 0 (Nat.succ_pos N)
        rwa [Nat.add_zero] at h
      have hN' : f (start + 1 + N) = some a := by
        rw [show start + 1 + N = start + (N + 1) from by omega]
        exact hN
      have hfail' : ∀ i, i < N → f (start + 1 + i) = none := by
        intro i hi
        have h := hfail (i + 1) (by omega)
        rwa [show start + (i + 1) = start + 1 + i from by omega] at h
      have hrec := ih (start + 1) (min (delay * 2) maxDelay) fuel a
        (min_le_right _ _) (by omega) hN' hfail'
      simp only [retry_until_ok, h0, hrec]
      refine congrArg some (congrArg (Prod.mk a) ?_)
      rw [List.range_succ_eq_map, List.map_cons, List.map_map]
      congr 1
      · simp [min_eq_left hd]
      · apply List.map_congr_left
        intro i _
        simp only [Function.comp_apply]
        exact capped_double_pow delay maxDelay i

theorem mem_stripPlus {c : Char} {l : List Char} (hc : c ∈ l) (hne : c ≠ '+') :
    c ∈ stripPlus l := by
  cases l with
  | nil => cases hc
  | cons a rest =>
    by_cases ha : a = '+'
    · rcases List.mem_cons.mp hc with h | h
      · exact absurd (h.trans ha) hne
      · simpa [stripPlus, ha] using h
    · simpa [stripPlus, ha] using hc

theorem get_members_eq_of (s : Settings) (v : String) (arr : List String)
    (hv : settingsGet s membersKey = some v) (hj : jsonParseStringVec v = some arr) :
    get_members_from_settings s = decodeMembers arr := by
  unfold get_members_from_settings
  rw [hv]
  simp [hj]

/-! ### Claim theorems -/

/-- C1: `load_settings` terminates fatally (modelled as the `none` result)
if and only if the members key is absent from the retrieved mapping, or its
value does not parse as a JSON array of strings, or some element of that
array fails hexadecimal decoding, or, after merging the duration settings,
`block_publishing_delay ≥ idle_timeout`; conversely, whenever it returns
normally, `block_publishing_delay < idle_timeout` holds in the resulting
record. -/
theorem load_settings_fatal_iff (cfg : PbftConfig) (s : Settings) :
    (cfg.load_settings s = none ↔
      (settingsGet s membersKey = none
        ∨ (∃ v, settingsGet s membersKey = some v ∧ jsonParseStringVec v = none)
        ∨ (∃ v arr, settingsGet s membersKey = some v ∧ jsonParseStringVec v = some arr ∧
            ∃ e ∈ arr, hexDecode e = none)
        ∨ merge_secs_setting_if_set s cfg.idle_timeout idleTimeoutKey ≤
            merge_millis_setting_if_set s cfg.block_publishing_delay blockPublishingDelayKey))
    ∧ (∀ cfg', cfg.load_settings s = some cfg' →
        cfg'.block_publishing_delay < cfg'.idle_timeout) := by
  constructor
  · rw [load_settings_eq_none_iff, get_members_eq_none_iff, or_assoc, or_assoc]
  · intro cfg' hl
    obtain ⟨ms, hm, hlt, rfl⟩ := (load_settings_eq_some_iff cfg s cfg').mp hl
    simpa using hlt

/-- Witness for C1: with an empty settings mapping the members key is
absent, so the load is fatal. -/
theorem load_settings_fatal_iff_witness :
    PbftConfig.default.load_settings [] = none :=
  (load_settings_fatal_iff PbftConfig.default []).1.mpr (Or.inl rfl)

/-- C2 counterexample: the settings mapping whose members value is the JSON
text of an empty array loads successfully and produces a record with empty
members, so a successful load does not guarantee non-empty members. -/
theorem load_settings_empty_members_counterexample :
    PbftConfig.default.load_settings [(membersKey, "[]")] = some PbftConfig.default ∧
      PbftConfig.default.members = [] := by
  exact ⟨rfl, rfl⟩

/-- C2 (amended): whenever `load_settings` returns normally, the members key
was present and its value parsed as a JSON array all of whose elements
hex-decode, and the members field is exactly the decoded sequence — which
may be empty (the code never checks non-emptiness), so the JSON text of an
empty array yields a successfully loaded record with empty members. -/
theorem load_settings_members_decoded (cfg : PbftConfig) (s : Settings)
    (cfg' : PbftConfig) (hl : cfg.load_settings s = some cfg') :
    ∃ v arr, settingsGet s membersKey = some v ∧ jsonParseStringVec v = some arr ∧
      decodeMembers arr = some cfg'.members := by
  obtain ⟨ms, hm, hlt, rfl⟩ := (load_settings_eq_some_iff cfg s cfg').mp hl
  cases hv : settingsGet s membersKey with
  | none =>
    unfold get_members_from_settings at hm
    rw [hv] at hm
    exact Option.noConfusion hm
  | some v =>
    cases hj : jsonParseStringVec v with
    | none =>
      unfold get_members_from_settings at hm
      rw [hv] at hm
      simp [hj] at hm
    | some arr =>
      rw [get_members_eq_of s v arr hv hj] at hm
      exact ⟨v, arr, rfl, hj, hm⟩

/-- Witness for C2's amended theorem at a concrete input. -/
theorem load_settings_members_decoded_witness :
    ∃ v arr, settingsGet [(membersKey, "[]")] membersKey = some v ∧
      jsonParseStringVec v = some arr ∧ decodeMembers arr = some PbftConfig.default.members :=
  load_settings_members_decoded PbftConfig.default [(membersKey, "[]")] PbftConfig.default rfl

/-- C3: if the members value is a JSON array of strings that all hex-decode,
then after a normal load the members field equals exactly the decoded
sequence — element by element, in the order of the JSON array, duplicates
preserved. -/
theorem load_settings_members_exact (cfg : PbftConfig) (s : Settings)
    (cfg' : PbftConfig) (v : String) (arr : List String) (bs : List PeerId)
    (hv : settingsGet s membersKey = some v)
    (hj : jsonParseStringVec v = some arr)
    (hd : decodeMembers arr = some bs)
    (hl : cfg.load_settings s = some cfg') :
    cfg'.members = bs ∧
      List.Forall₂ (fun e b => hexDecode e = some b) arr cfg'.members := by
  obtain ⟨ms, hm, hlt, rfl⟩ := (load_settings_eq_some_iff cfg s cfg').mp hl
  rw [get_members_eq_of s v arr hv hj, hd] at hm
  injection hm with h'
  subst h'
  exact ⟨rfl, decodeMembers_forall2 arr bs hd⟩

/-- Witness for C3 at a concrete input with a duplicated member. -/
theorem load_settings_members_exact_witness :
    ({ PbftConfig.default with members := [[10], [10]] } : PbftConfig).members = [[10], [10]] ∧
      List.Forall₂ (fun e b => hexDecode e = some b) ["0a", "0a"]
        ({ PbftConfig.default with members := [[10], [10]] } : PbftConfig).members :=
  load_settings_members_exact PbftConfig.default [(membersKey, "[\"0a\",\"0a\"]")]
    { PbftConfig.default with members := [[10], [10]] } "[\"0a\",\"0a\"]" ["0a", "0a"]
    [[10], [10]] rfl rfl rfl rfl

/-- C4: for each optional setting key, if the key is absent from the mapping
or its value fails to parse, the corresponding field retains the value it
had before the merge after a normal load; and a failing load is only ever
caused by the members setting or by the merged timing invariant, never by
an optional parse failure itself. -/
theorem load_settings_optional_retained (cfg : PbftConfig) (s : Settings) :
    (∀ cfg', cfg.load_settings s = some cfg' →
      (((∀ v, settingsGet s blockPublishingDelayKey = some v → parseU64 v = none) →
          cfg'.block_publishing_delay = cfg.block_publishing_delay) ∧
        ((∀ v, settingsGet s idleTimeoutKey = some v → parseU64 v = none) →
          cfg'.idle_timeout = cfg.idle_timeout) ∧
        ((∀ v, settingsGet s commitTimeoutKey = some v → parseU64 v = none) →
          cfg'.commit_timeout = cfg.commit_timeout) ∧
        ((∀ v, settingsGet s viewChangeDurationKey = some v → parseU64 v = none) →
          cfg'.view_change_duration = cfg.view_change_duration) ∧
        ((∀ v, settingsGet s forcedViewChangePeriodKey = some v → parseU64 v = none) →
          cfg'.forced_view_change_period = cfg.forced_view_change_period))) ∧
    (cfg.load_settings s = none →
      (get_members_from_settings s = none ∨
        merge_secs_setting_if_set s cfg.idle_timeout idleTimeoutKey ≤
          merge_millis_setting_if_set s cfg.block_publishing_delay blockPublishingDelayKey)) := by
  constructor
  · intro cfg' hl
    obtain ⟨ms, hm, hlt, rfl⟩ := (load_settings_eq_some_iff cfg s cfg').mp hl
    refine ⟨fun h => ?_, fun h => ?_, fun h => ?_, fun h => ?_, fun h => ?_⟩ <;>
      simp [merge_millis_setting_if_set, merge_secs_setting_if_set, merge_setting_if_set,
        merge_setting_if_set_and_map_not_set s _ _ _ h]
  · exact (load_settings_eq_none_iff cfg s).mp

/-- Witness for C4: a present but unparsable `commit_timeout` is retained at
its prior value while the load still succeeds. -/
theorem load_settings_optional_retained_witness :
    ({ PbftConfig.default with members := [[10]] } : PbftConfig).commit_timeout =
      PbftConfig.default.commit_timeout :=
  (((load_settings_optional_retained PbftConfig.default
      [(membersKey, "[\"0a\"]"), (commitTimeoutKey, "abc")]).1
    { PbftConfig.default with members := [[10]] } rfl).2.2.1)
    (fun v hv => by
      have h' := Option.some.inj hv
      rw [← h']
      decide)

/-- C5: a present, parseable duration or integer setting merges as a count
of the documented unit: milliseconds for `block_publishing_delay`, seconds
for `idle_timeout`, `commit_timeout` and `view_change_duration`, and the
plain integer for `forced_view_change_period`. -/
theorem load_settings_optional_merged (cfg : PbftConfig) (s : Settings)
    (cfg' : PbftConfig) (hl : cfg.load_settings s = some cfg') :
    (∀ v n, settingsGet s blockPublishingDelayKey = some v → parseU64 v = some n →
      cfg'.block_publishing_delay = Duration.fromMillis n) ∧
    (∀ v n, settingsGet s idleTimeoutKey = some v → parseU64 v = some n →
      cfg'.idle_timeout = Duration.fromSecs n) ∧
    (∀ v n, settingsGet s commitTimeoutKey = some v → parseU64 v = some n →
      cfg'.commit_timeout = Duration.fromSecs n) ∧
    (∀ v n, settingsGet s viewChangeDurationKey = some v → parseU64 v = some n →
      cfg'.view_change_duration = Duration.fromSecs n) ∧
    (∀ v n, settingsGet s forcedViewChangePeriodKey = some v → parseU64 v = some n →
      cfg'.forced_view_change_period = n) := by
  obtain ⟨ms, hm, hlt, rfl⟩ := (load_settings_eq_some_iff cfg s cfg').mp hl
  refine ⟨fun v n hv hn => ?_, fun v n hv hn => ?_, fun v n hv hn => ?_,
    fun v n hv hn => ?_, fun v n hv hn => ?_⟩ <;>
    simp [merge_millis_setting_if_set, merge_secs_setting_if_set, merge_setting_if_set,
      merge_setting_if_set_and_map_set s _ _ _ v n hv hn]

/-- Witness for C5: `commit_timeout = "8"` merges as eight seconds. -/
theorem load_settings_optional_merged_witness :
    ({ PbftConfig.default with
        members := [[10]]
        block_publishing_delay := Duration.fromMillis 500
        idle_timeout := Duration.fromSecs 7
        commit_timeout := Duration.fromSecs 8
        view_change_duration := Duration.fromSecs 9
        forced_view_change_period := 99 } : PbftConfig).commit_timeout =
      Duration.fromSecs 8 :=
  ((load_settings_optional_merged PbftConfig.default
      [(membersKey, "[\"0a\"]"), (blockPublishingDelayKey, "500"), (idleTimeoutKey, "7"),
        (commitTimeoutKey, "8"), (viewChangeDurationKey, "9"),
        (forcedViewChangePeriodKey, "99")]
      { PbftConfig.default with
        members := [[10]]
        block_publishing_delay := Duration.fromMillis 500
        idle_timeout := Duration.fromSecs 7
        commit_timeout := Duration.fromSecs 8
        view_change_duration := Duration.fromSecs 9
        forced_view_change_period := 99 } rfl).2.2.1) "8" 8 rfl rfl

/-- C6: default construction (a total function: no I/O, never fails) yields
exactly the documented values — empty members, 200 ms publishing delay,
10 ms update receive timeout, 100 ms retry base, 60 s retry max, 30 s idle
and commit timeouts, 5 s view change duration, period 30, log size 1000,
storage "memory" — and it satisfies `block_publishing_delay < idle_timeout`. -/
theorem default_config_values :
    PbftConfig.default.members = [] ∧
    PbftConfig.default.block_publishing_delay = Duration.fromMillis 200 ∧
    PbftConfig.default.update_recv_timeout = Duration.fromMillis 10 ∧
    PbftConfig.default.exponential_retry_base = Duration.fromMillis 100 ∧
    PbftConfig.default.exponential_retry_max = Duration.fromSecs 60 ∧
    PbftConfig.default.idle_timeout = Duration.fromSecs 30 ∧
    PbftConfig.default.commit_timeout = Duration.fromSecs 30 ∧
    PbftConfig.default.view_change_duration = Duration.fromSecs 5 ∧
    PbftConfig.default.forced_view_change_period = 30 ∧
    PbftConfig.default.max_log_size = 1000 ∧
    PbftConfig.default.storage = "memory" ∧
    PbftConfig.default.block_publishing_delay < PbftConfig.default.idle_timeout :=
  ⟨rfl, rfl, rfl, rfl, rfl, rfl, rfl, rfl, rfl, rfl, rfl, by decide⟩

/-- C7: load is idempotent — a second load on the record produced by a
successful load, with the same settings mapping, succeeds and yields the
identical record. -/
theorem load_settings_idempotent (cfg : PbftConfig) (s : Settings)
    (cfg' : PbftConfig) (hl : cfg.load_settings s = some cfg') :
    cfg'.load_settings s = some cfg' := by
  obtain ⟨ms, hm, hlt, rfl⟩ := (load_settings_eq_some_iff cfg s cfg').mp hl
  refine (load_settings_eq_some_iff _ s _).mpr ⟨ms, hm, ?_, ?_⟩
  · simpa [merge_millis_setting_if_set, merge_secs_setting_if_set,
      merge_setting_if_set_and_map_idem] using hlt
  · simp [merge_millis_setting_if_set, merge_secs_setting_if_set, merge_setting_if_set,
      merge_setting_if_set_and_map_idem]

/-- Witness for C7 at a concrete input. -/
theorem load_settings_idempotent_witness :
    PbftConfig.default.load_settings [(membersKey, "[]")] = some PbftConfig.default :=
  load_settings_idempotent PbftConfig.default [(membersKey, "[]")] PbftConfig.default rfl

/-- C9: a successful load leaves `storage`, `update_recv_timeout`,
`exponential_retry_base`, `exponential_retry_max` and `max_log_size`
unchanged from their values before the call, for every settings mapping
(including one containing a storage key). -/
theorem load_settings_frame (cfg : PbftConfig) (s : Settings)
    (cfg' : PbftConfig) (hl : cfg.load_settings s = some cfg') :
    cfg'.storage = cfg.storage ∧
    cfg'.update_recv_timeout = cfg.update_recv_timeout ∧
    cfg'.exponential_retry_base = cfg.exponential_retry_base ∧
    cfg'.exponential_retry_max = cfg.exponential_retry_max ∧
    cfg'.max_log_size = cfg.max_log_size := by
  obtain ⟨ms, hm, hlt, rfl⟩ := (load_settings_eq_some_iff cfg s cfg').mp hl
  exact ⟨rfl, rfl, rfl, rfl, rfl⟩

/-- Witness for C9: even with a storage key present in the mapping, the
storage field keeps its prior value. -/
theorem load_settings_frame_witness :
    ({ PbftConfig.default with
        members := [[255]]
        storage := "disk" } : PbftConfig).storage =
      ({ PbftConfig.default with storage := "disk" } : PbftConfig).storage ∧
    ({ PbftConfig.default with
        members := [[255]]
        storage := "disk" } : PbftConfig).update_recv_timeout =
      ({ PbftConfig.default with storage := "disk" } : PbftConfig).update_recv_timeout ∧
    ({ PbftConfig.default with
        members := [[255]]
        storage := "disk" } : PbftConfig).exponential_retry_base =
      ({ PbftConfig.default with storage := "disk" } : PbftConfig).exponential_retry_base ∧
    ({ PbftConfig.default with
        members := [[255]]
        storage := "disk" } : PbftConfig).exponential_retry_max =
      ({ PbftConfig.default with storage := "disk" } : PbftConfig).exponential_retry_max ∧
    ({ PbftConfig.default with
        members := [[255]]
        storage := "disk" } : PbftConfig).max_log_size =
      ({ PbftConfig.default with storage := "disk" } : PbftConfig).max_log_size :=
  load_settings_frame { PbftConfig.default with storage := "disk" }
    [(membersKey, "[\"ff\"]"), ("sawtooth.consensus.pbft.storage", "memory")]
    { PbftConfig.default with
      members := [[255]]
      storage := "disk" } rfl

/-- C8 (spec-modelled: the retry loop lives in `src/timing.rs`, which is not
among the provided sources): if the settings service fails on every attempt
before attempt `N` and succeeds on attempt `N`, the retrieval loop returns
the successful result — a transient failure is never surfaced as an error —
and the delays slept before each retry are the capped doubling sequence
`min (base * 2 ^ i) maxDelay`, starting at the base and never exceeding the
maximum. -/
theorem retry_until_ok_eventually {α : Type} (f : Nat → Option α)
    (base maxDelay N fuel : Nat) (a : α)
    (hbase : base ≤ maxDelay) (hN : f N = some a)
    (hfail : ∀ i, i < N → f i = none) (hfuel : N < fuel) :
    retry_until_ok f maxDelay fuel 0 base =
      some (a, (List.range N).map (fun i => min (base * 2 ^ i) maxDelay)) :=
  retry_until_ok_from f maxDelay N 0 base fuel a hbase hfuel
    (by simpa using hN) (fun i hi => by simpa using hfail i hi)

/-- Witness for C8: two failures then a success returns the successful
value after sleeping 100 then 200. -/
theorem retry_until_ok_eventually_witness :
    retry_until_ok (fun i => if i = 2 then some 42 else none) 300 3 0 100 =
      some (42, (List.range 2).map (fun i => min (100 * 2 ^ i) 300)) :=
  retry_until_ok_eventually (fun i => if i = 2 then some 42 else none) 100 300 2 3 42
    (by decide) rfl (by decide) (by decide)

/-- C10: the optional settings are parsed as unsigned 64-bit integers — a
string starting with a minus sign, a string containing a decimal point, and
any string whose numeric value reaches `2 ^ 64` all fail the parse; a key
whose value fails the parse leaves the merged field at its prior value, and
a failing load is never caused by such a parse failure (only by the members
setting or the merged timing invariant). -/
theorem optional_u64_parse_semantics (cfg : PbftConfig) (s : Settings) :
    (∀ (v : String) (rest : List Char), v.data = '-' :: rest → parseU64 v = none) ∧
    (∀ v : String, '.' ∈ v.data → parseU64 v = none) ∧
    (∀ (v : String) (n : Nat), parseU64 v = some n → n < 2 ^ 64) ∧
    (∀ (α : Type) (f : α) (k : String) (m : Nat → α),
      (∀ v, settingsGet s k = some v → parseU64 v = none) →
      merge_setting_if_set_and_map s f k m = f) ∧
    (cfg.load_settings s = none →
      (get_members_from_settings s = none ∨
        merge_secs_setting_if_set s cfg.idle_timeout idleTimeoutKey ≤
          merge_millis_setting_if_set s cfg.block_publishing_delay blockPublishingDelayKey)) := by
  refine ⟨?_, ?_, ?_, fun α f k m h => merge_setting_if_set_and_map_not_set s f k m h,
    (load_settings_eq_none_iff cfg s).mp⟩
  · intro v rest hv
    have hstrip : stripPlus v.data = '-' :: rest := by
      rw [hv]
      simp [stripPlus]
    have hdig : ('-' : Char).isDigit = false := by decide
    unfold parseU64
    rw [hstrip]
    simp [hdig]
  · intro v hdot
    have hmem : '.' ∈ stripPlus v.data := mem_stripPlus hdot (by decide)
    have hemp : (stripPlus v.data).isEmpty = false := by
      cases hsp : stripPlus v.data with
      | nil =>
        rw [hsp] at hmem
        cases hmem
      | cons a r => simp
    have hall : (stripPlus v.data).all Char.isDigit = false := by
      cases hb : (stripPlus v.data).all Char.isDigit with
      | false => rfl
      | true =>
        have hd := List.all_eq_true.mp hb '.' hmem
        exact absurd hd (by decide)
    unfold parseU64
    rw [hemp, hall]
    simp
  · intro v n h
    unfold parseU64 at h
    split at h
    · exact Option.noConfusion h
    · split at h
      · split at h
        · injection h with h'
          omega
        · exact Option.noConfusion h
      · exact Option.noConfusion h

/-- Witness for C10: a negative string, a fractional string and an
out-of-range string all fail; an out-of-range `commit_timeout` leaves the
field untouched. -/
theorem optional_u64_parse_semantics_witness :
    parseU64 "-5" = none ∧ parseU64 "1.5" = none ∧
      merge_setting_if_set_and_map [(commitTimeoutKey, "18446744073709551616")] (30 : Nat)
        commitTimeoutKey (fun x => x) = 30 := by
  refine ⟨?_, ?_, ?_⟩
  · exact (optional_u64_parse_semantics PbftConfig.default []).1 "-5" ['5'] rfl
  · exact (optional_u64_parse_semantics PbftConfig.default []).2.1 "1.5" (by decide)
  · exact (optional_u64_parse_semantics PbftConfig.default
      [(commitTimeoutKey, "18446744073709551616")]).2.2.2.1 Nat 30 commitTimeoutKey
      (fun x => x)
      (fun v hv => by
        have h' := Option.some.inj hv
        rw [← h']
        decide)
